import Mathlib

/-!
# Verification of `v2/tracing/tracing.go` (relychan/machinery)

Shallow embedding of the OpenTelemetry tracing shim in
`src/v2/tracing/tracing.go`, together with models of its external
collaborators:

* the `tasks` package of the same repository (header maps, signatures,
  chains, groups, chords) — not under `src/`, so modelled from the spec;
* Go's `net/http` / `net/textproto` header type (`http.Header.Set`
  canonicalizes keys to MIME canonical form);
* the OpenTelemetry propagator and tracer, which the spec treats as
  opaque pluggable singletons with an inject/extract contract.

Go maps are unordered; we embed a map as a list of key/value pairs whose
list order stands for one concrete iteration order, and state map-level
facts extensionally via lookup.
-/

namespace Machinery

/-- Association-list lookup: first entry with the given key (a Go map has
at most one entry per key, so this is the map lookup). -/
def getAssoc {α : Type} : List (String × α) → String → Option α
  | [], _ => none
  | (k', v') :: rest, k => if k' = k then some v' else getAssoc rest k

/-- Association-list update: replace the value at the first entry with the
given key, keeping its position; append when the key is absent.  This is
the embedding of a Go map assignment `m[k] = v`. -/
def setAssoc {α : Type} : List (String × α) → String → α → List (String × α)
  | [], k, v => [(k, v)]
  | (k', v') :: rest, k, v =>
    if k' = k then (k, v) :: rest else (k', v') :: setAssoc rest k v

/-- Go `textproto.validHeaderFieldByte`: the RFC 7230 token characters.
Bytes outside this set make `CanonicalMIMEHeaderKey` return its argument
unchanged. -/
def validHeaderFieldByte (c : Char) : Bool :=
  (('0' ≤ c && c ≤ '9') || ('a' ≤ c && c ≤ 'z') || ('A' ≤ c && c ≤ 'Z')
    || [33, 35, 36, 37, 38, 39, 42, 43, 45, 46, 94, 95, 96, 124, 126].contains c.toNat)

/-- The per-character loop of Go `textproto.canonicalMIMEHeaderKey`:
uppercase a letter at the start or after a hyphen, lowercase it
otherwise; `upper` tracks whether the previous character was a hyphen
(or we are at the start). -/
def canonicalChars (upper : Bool) : List Char → List Char
  | [] => []
  | c :: rest =>
    let c' :=
      if upper && ('a' ≤ c && c ≤ 'z') then Char.ofNat (c.toNat - 32)
      else if !upper && ('A' ≤ c && c ≤ 'Z') then Char.ofNat (c.toNat + 32)
      else c
    c' :: canonicalChars (c' = '-') rest

/-- Go `textproto.CanonicalMIMEHeaderKey`: canonicalize when every byte is
a valid header-field byte, otherwise return the key unchanged. -/
def CanonicalMIMEHeaderKey (s : String) : String :=
  if s.data.all validHeaderFieldByte then String.mk (canonicalChars true s.data) else s

/-- Go `http.Header`: map from (canonicalized) key to a list of string
values, embedded as an iteration-ordered entry list. -/
abbrev HTTP : Type := List (String × List String)

/-- Go `http.Header.Set` (via `textproto.MIMEHeader.Set`): canonicalize
the key and bind it to the single-element value list. -/
def HTTP.Set (h : HTTP) (key value : String) : HTTP :=
  setAssoc h (CanonicalMIMEHeaderKey key) [value]

/-- Go `http.Header.Get` (via `textproto.MIMEHeader.Get`): canonicalize
the key, return the first value bound to it, or `""` when the key is
absent or has no values. -/
def HTTP.Get (h : HTTP) (key : String) : String :=
  match getAssoc h (CanonicalMIMEHeaderKey key) with
  | some (v :: _) => v
  | _ => ""

/-- Modelled from the spec ("Header Map: mapping from string key to an
arbitrary scalar value"): the dynamic (`interface\x7b\x7d`) values a task
header map can hold.  `fmt.Sprint` on the non-string scalars is their
canonical text form. -/
inductive HVal : Type where
  | str (s : String)
  | int (n : Int)
  | bool (b : Bool)
deriving DecidableEq, Repr

/-- Go `fmt.Sprint` on the scalar header values. -/
def fmtSprint : HVal → String
  | .str s => s
  | .int n => toString n
  | .bool b => if b then "true" else "false"

/-- Modelled from the spec: the task message header map
(`tasks.Headers`, a Go `map[string]interface\x7b\x7d` in the `tasks`
package, which is not under `src/`), embedded as an iteration-ordered
entry list. -/
abbrev Headers : Type := List (String × HVal)

/-- Modelled from the spec: `tasks.Headers.Set` stores a string value at
the raw key (a plain Go map assignment; no canonicalization). -/
def Headers.Set (h : Headers) (key value : String) : Headers :=
  setAssoc h key (HVal.str value)

/-- A span context: the minimal token (trace id + span id) the propagator
carries across process boundaries.  Modelled from the spec ("opaque token
identifying a position in a trace"). -/
structure SpanCtx : Type where
  traceID : Nat
  spanID : Nat
deriving DecidableEq, Repr

/-- A Go `context.Context` as far as this shim observes it: the active
span context, if any. -/
abbrev Context : Type := Option SpanCtx

/-- Modelled from the spec: the propagator's wire encoding of a span
context is opaque ("an opaque injectable/extractable byte-or-string
representation"); we use a simple injective string encoding whose only
relevant property is the extract/inject round trip. -/
def encodeSpanCtx (c : SpanCtx) : String :=
  String.mk (List.replicate c.traceID 'x' ++ '-' :: List.replicate c.spanID 'x')

/-- Character-level decoder for `encodeSpanCtx`; `acc` counts the leading
trace-id characters already consumed. -/
def decodeChars (acc : Nat) : List Char → Option SpanCtx
  | [] => none
  | c :: rest =>
    if c = 'x' then decodeChars (acc + 1) rest
    else if c = '-' then
      if rest.all (fun d => d = 'x') then some ⟨acc, rest.length⟩ else none
    else none

/-- Modelled from the spec: the propagator's decoder, inverse to
`encodeSpanCtx`; malformed input yields `none`. -/
def decodeSpanCtx (s : String) : Option SpanCtx :=
  decodeChars 0 s.data

/-- The carrier key the propagator writes its encoded context under
(lowercase on the way in; `HeaderCarrier.Set`, i.e. `http.Header.Set`,
canonicalizes it to `"Traceparent"`). -/
def traceparentKey : String := "traceparent"

/-- Modelled from the spec: the pluggable propagator's
`inject(context, carrier)` — writes the encoded active span context into
the carrier through `HeaderCarrier.Set` (= `http.Header.Set`); a context
with no active span injects nothing. -/
def Propagator.inject (ctx : Context) (carrier : HTTP) : HTTP :=
  match ctx with
  | none => carrier
  | some c => HTTP.Set carrier traceparentKey (encodeSpanCtx c)

/-- Modelled from the spec: the pluggable propagator's
`extract(context, carrier) → context` — reads the carrier through
`HeaderCarrier.Get` (= `http.Header.Get`) and decodes; extraction failure
is non-fatal and leaves the incoming context unchanged. -/
def Propagator.extract (ctx : Context) (carrier : HTTP) : Context :=
  match decodeSpanCtx (HTTP.Get carrier traceparentKey) with
  | some c => some c
  | none => ctx

/-- OpenTelemetry span attribute values as this shim uses them
(`attribute.String`, `attribute.Int`, `attribute.StringSlice`). -/
inductive AttrVal : Type where
  | str (s : String)
  | int (n : Int)
  | strSlice (l : List String)
deriving DecidableEq, Repr

/-- A span attribute: key plus value. -/
abbrev Attr : Type := String × AttrVal

/-- Constructor `attribute.String` of the otel `attribute` package. -/
def attributeString (key value : String) : Attr := (key, AttrVal.str value)

/-- Constructor `attribute.Int` of the otel `attribute` package. -/
def attributeInt (key : String) (value : Int) : Attr := (key, AttrVal.int value)

/-- Constructor `attribute.StringSlice` of the otel `attribute` package. -/
def attributeStringSlice (key : String) (value : List String) : Attr :=
  (key, AttrVal.strSlice value)

/-- Type `trace.SpanKind` of the otel `trace` package. -/
inductive SpanKind : Type where
  | unspecified
  | internal
  | server
  | client
  | producer
  | consumer
deriving DecidableEq, Repr

/-- Modelled from the spec: a span as this shim observes it — its
operation name, kind, and the attributes set on it, in order.
`SetAttributes` appends; the observable value of an attribute key is its
last occurrence. -/
structure Span : Type where
  name : String
  kind : SpanKind
  attrs : List Attr
deriving DecidableEq, Repr

/-- otel `span.SetAttributes`: record the given attributes (upsert;
appending preserves the last-occurrence-wins observable). -/
def Span.setAttributes (s : Span) (l : List Attr) : Span :=
  { s with attrs := s.attrs ++ l }

/-- The observable value of an attribute on a span: the value at its last
`SetAttributes` occurrence, if any. -/
def Span.attr? (s : Span) (key : String) : Option AttrVal :=
  match s.attrs.reverse.find? (fun p => p.1 == key) with
  | some p => some p.2
  | none => none

/-- Type `trace.SpanStartOption` as this shim could pass it: span kind or
initial attributes. -/
inductive SpanStartOption : Type where
  | withSpanKind (k : SpanKind)
  | withAttributes (l : List Attr)
deriving DecidableEq, Repr

/-- Fold one start option into a (kind, attributes) start configuration. -/
def applyStartOption (cfg : SpanKind × List Attr) : SpanStartOption → SpanKind × List Attr
  | .withSpanKind k => (k, cfg.2)
  | .withAttributes l => (cfg.1, cfg.2 ++ l)

/-- Modelled from the spec: the external span factory
`start(context, name, kind) → (context, span)`.  The SDK generates fresh
ids; we pass them in as the `fresh` parameter.  The child keeps the
parent's trace id when a span context is active, otherwise it starts a
new trace with the fresh ids. -/
def Tracer.start (ctx : Context) (name : String) (opts : List SpanStartOption)
    (fresh : SpanCtx) : Context × Span :=
  let cfg := opts.foldl applyStartOption (SpanKind.internal, [])
  let newCtx : SpanCtx :=
    match ctx with
    | some c => { traceID := c.traceID, spanID := fresh.spanID }
    | none => fresh
  (some newCtx, { name := name, kind := cfg.1, attrs := cfg.2 })

/-- Source `MachineryTag = attribute.String("component", "machinery")`. -/
def MachineryTag : Attr := attributeString "component" "machinery"

/-- Source `WorkflowGroupTag = attribute.String("machinery.workflow", "group")`. -/
def WorkflowGroupTag : Attr := attributeString "machinery.workflow" "group"

/-- Source `WorkflowChordTag = attribute.String("machinery.workflow", "chord")`. -/
def WorkflowChordTag : Attr := attributeString "machinery.workflow" "chord"

/-- Source `WorkflowChainTag = attribute.String("machinery.workflow", "chain")`. -/
def WorkflowChainTag : Attr := attributeString "machinery.workflow" "chain"

set_option linter.unusedVariables false in
/-- Function `StartSpan` of `tracing.go`: starts a new span with the given
operation name.  Note the source discards its variadic `opts` and always
passes only `trace.WithSpanKind(trace.SpanKindProducer)`. -/
def StartSpan (ctx : Context) (operationName : String) (opts : List SpanStartOption)
    (fresh : SpanCtx) : Context × Span :=
  Tracer.start ctx operationName [SpanStartOption.withSpanKind SpanKind.producer] fresh

/-- The `for key, value := range headers` loop of `tasksToHTTPHeader`,
over the iteration order given by the list; strings pass through the
`case string` arm, everything else goes through `fmt.Sprint`. -/
def tasksToHTTPHeaderAux (result : HTTP) : Headers → HTTP
  | [] => result
  | (key, value) :: rest =>
    match value with
    | HVal.str v => tasksToHTTPHeaderAux (HTTP.Set result key v) rest
    | v => tasksToHTTPHeaderAux (HTTP.Set result key (fmtSprint v)) rest

/-- Function `tasksToHTTPHeader` of `tracing.go`: convert a task header map to an
`http.Header`, coercing each value to a string. -/
def tasksToHTTPHeader (headers : Headers) : HTTP :=
  tasksToHTTPHeaderAux [] headers

/-- The `for key, values := range headers` loop of `applyTaskHeaders`:
skip entries with no values, otherwise `dest.Set(key, values[0])`. -/
def applyTaskHeadersAux (dest : Headers) : HTTP → Headers
  | [] => dest
  | (key, values) :: rest =>
    match values with
    | [] => applyTaskHeadersAux dest rest
    | v :: _ => applyTaskHeadersAux (dest.Set key v) rest

/-- Function `applyTaskHeaders` of `tracing.go`: merge an `http.Header` into a task
header map, creating the destination when it is nil (`none`). -/
def applyTaskHeaders (dest : Option Headers) (headers : HTTP) : Headers :=
  let d : Headers :=
    match dest with
    | none => ([] : List (String × HVal))
    | some d => d
  applyTaskHeadersAux d headers

/-- Function `StartSpanFromHeaders` of `tracing.go`: extract a span context from
the signature headers and start a new span, tagging it with
`MachineryTag`.  A nil Go header map iterates as empty, hence the
`Option` with `getD []`. -/
def StartSpanFromHeaders (ctx : Context) (headers : Option Headers)
    (operationName : String) (fresh : SpanCtx) : Context × Span :=
  let ctx := Propagator.extract ctx (tasksToHTTPHeader (headers.getD []))
  let r := Tracer.start ctx operationName [SpanStartOption.withSpanKind SpanKind.producer] fresh
  (r.1, r.2.setAttributes [MachineryTag])

/-- Function `HeadersWithSpan` of `tracing.go`: inject the span of the context
into the signature headers (a fresh `http.Header` is filled by the
propagator and merged into the given headers). -/
def HeadersWithSpan (ctx : Context) (headers : Option Headers) : Headers :=
  applyTaskHeaders headers (Propagator.inject ctx ([] : List (String × List String)))

/-- Modelled from the spec: `tasks.Signature` ("a single unit of work —
name, unique id, optional group id, ... and its own Header Map"; the
`tasks` package is not under `src/`).  The header map is a nilable Go
map, hence `Option`.  The chord-callback field is omitted: no claim here
touches `AnnotateSpanWithSignatureInfo`, the only reader of it. -/
structure Signature : Type where
  Name : String
  UUID : String
  GroupUUID : String
  Headers : Option Headers
deriving DecidableEq, Repr

/-- Modelled from the spec: `tasks.Chain`, an ordered sequence of task
signatures. -/
structure Chain : Type where
  Tasks : List Signature
deriving DecidableEq, Repr

/-- Modelled from the spec: `tasks.Group`, a set of task signatures with
a group identifier. -/
structure Group : Type where
  GroupUUID : String
  Tasks : List Signature
deriving DecidableEq, Repr

/-- Modelled from the spec: `tasks.Group.GetUUIDs` collects the member
task ids in order. -/
def Group.GetUUIDs (group : Group) : List String :=
  group.Tasks.map Signature.UUID

/-- Modelled from the spec: `tasks.Chord`, "a Group plus exactly one
designated callback Task Signature"; the callback is a nilable pointer,
hence `Option`. -/
structure Chord : Type where
  Group : Group
  Callback : Option Signature
deriving DecidableEq, Repr

/-- Function `AnnotateSpanWithChainInfo` of `tracing.go`: tag the span with the
chain length, then inject the current context into every member's
headers.  Signatures are updated through pointers in Go; we return the
updated chain. -/
def AnnotateSpanWithChainInfo (ctx : Context) (span : Span) (chain : Chain) :
    Span × Chain :=
  let span := span.setAttributes [attributeInt "chain.tasks.length" (chain.Tasks.length : Int)]
  (span,
   { Tasks := chain.Tasks.map fun signature =>
       { signature with Headers := some (HeadersWithSpan ctx signature.Headers) } })

/-- Function `AnnotateSpanWithGroupInfo` of `tracing.go`: tag the span with the
group id, task count, concurrency and the member uuid list, then inject
the current context into every member's headers. -/
def AnnotateSpanWithGroupInfo (ctx : Context) (span : Span) (group : Group)
    (sendConcurrency : Int) : Span × Group :=
  let span := span.setAttributes
    [attributeString "group.uuid" group.GroupUUID,
     attributeInt "group.tasks.length" (group.Tasks.length : Int),
     attributeInt "group.concurrency" sendConcurrency]
  let span := span.setAttributes [attributeStringSlice "group.tasks" group.GetUUIDs]
  (span,
   { GroupUUID := group.GroupUUID,
     Tasks := group.Tasks.map fun signature =>
       { signature with Headers := some (HeadersWithSpan ctx signature.Headers) } })

/-- Function `AnnotateSpanWithChordInfo` of `tracing.go`: tag the span with the
callback's uuid (a nil callback makes the Go code dereference a nil
pointer — modelled as `none`), inject the current context into the
callback's headers, then delegate to the group annotation with the same
span and concurrency. -/
def AnnotateSpanWithChordInfo (ctx : Context) (span : Span) (chord : Chord)
    (sendConcurrency : Int) : Option (Span × Chord) :=
  match chord.Callback with
  | none => none
  | some callback =>
    let span := span.setAttributes [attributeString "chord.callback.uuid" callback.UUID]
    let callback := { callback with Headers := some (HeadersWithSpan ctx callback.Headers) }
    let r := AnnotateSpanWithGroupInfo ctx span chord.Group sendConcurrency
    some (r.1, { Group := r.2, Callback := some callback })

/-- The context a consumer-side `StartSpanFromHeaders` would extract from
a signature's headers when no inbound context is active: the observable
"extractable span context" of a dispatched signature. -/
def extractFromSignature (sig : Signature) : Context :=
  Propagator.extract none (tasksToHTTPHeader (sig.Headers.getD []))

/-! ## Helper lemmas: association lists -/

theorem getAssoc_setAssoc_self {α : Type} (l : List (String × α)) (k : String) (v : α) :
    getAssoc (setAssoc l k v) k = some v := by
  induction l with
  | nil => simp [setAssoc, getAssoc]
  | cons e rest ih =>
    obtain ⟨k', v'⟩ := e
    by_cases h : k' = k
    · simp [setAssoc, h, getAssoc]
    · simp [setAssoc, h, getAssoc, ih]

theorem getAssoc_setAssoc_ne {α : Type} (l : List (String × α)) (k k' : String) (v : α)
    (h : k' ≠ k) : getAssoc (setAssoc l k v) k' = getAssoc l k' := by
  have hne : ¬(k = k') := fun hh => h hh.symm
  induction l with
  | nil => simp [setAssoc, getAssoc, hne]
  | cons e rest ih =>
    obtain ⟨k₁, v₁⟩ := e
    by_cases h₁ : k₁ = k
    · subst h₁
      simp [setAssoc, getAssoc, hne]
    · simp [setAssoc, h₁, getAssoc, ih]

theorem setAssoc_idem {α : Type} (l : List (String × α)) (k : String) (v : α) :
    setAssoc (setAssoc l k v) k v = setAssoc l k v := by
  induction l with
  | nil => simp [setAssoc]
  | cons e rest ih =>
    obtain ⟨k', v'⟩ := e
    by_cases h : k' = k
    · simp [setAssoc, h]
    · simp [setAssoc, h, ih]

theorem mem_setAssoc_self {α : Type} (l : List (String × α)) (k : String) (v : α) :
    (k, v) ∈ setAssoc l k v := by
  induction l with
  | nil => simp [setAssoc]
  | cons e rest ih =>
    obtain ⟨k', v'⟩ := e
    by_cases h : k' = k
    · simp [setAssoc, h]
    · simp only [setAssoc, if_neg h, List.mem_cons]
      exact Or.inr ih

theorem mem_setAssoc_weak {α : Type} {l : List (String × α)} {k : String} {v : α}
    {p : String × α} (hp : p ∈ setAssoc l k v) : p = (k, v) ∨ p ∈ l := by
  induction l with
  | nil => simpa [setAssoc] using hp
  | cons e rest ih =>
    obtain ⟨k', v'⟩ := e
    by_cases h : k' = k
    · rcases List.mem_cons.mp (by simpa [setAssoc, h] using hp) with h₁ | h₁
      · exact Or.inl h₁
      · exact Or.inr (List.mem_cons_of_mem _ h₁)
    · rcases List.mem_cons.mp (by simpa [setAssoc, h] using hp) with h₁ | h₁
      · exact Or.inr (by simp [h₁])
      · rcases ih h₁ with h₂ | h₂
        · exact Or.inl h₂
        · exact Or.inr (List.mem_cons_of_mem _ h₂)

theorem mem_setAssoc_nodup {α : Type} {l : List (String × α)} {k : String} {v : α}
    {p : String × α} (hnd : (l.map Prod.fst).Nodup) (hp : p ∈ setAssoc l k v) :
    p = (k, v) ∨ (p ∈ l ∧ p.1 ≠ k) := by
  induction l with
  | nil => simpa [setAssoc] using hp
  | cons e rest ih =>
    obtain ⟨k', v'⟩ := e
    rw [List.map_cons, List.nodup_cons] at hnd
    by_cases h : k' = k
    · subst h
      rcases List.mem_cons.mp (by simpa [setAssoc] using hp) with h₁ | h₁
      · exact Or.inl h₁
      · refine Or.inr ⟨List.mem_cons_of_mem _ h₁, ?_⟩
        intro hk
        apply hnd.1
        have hm : p.1 ∈ rest.map Prod.fst := List.mem_map_of_mem Prod.fst h₁
        rwa [hk] at hm
    · rcases List.mem_cons.mp (by simpa [setAssoc, h] using hp) with h₁ | h₁
      · exact Or.inr ⟨by simp [h₁], by simp [h₁, h]⟩
      · rcases ih hnd.2 h₁ with h₂ | h₂
        · exact Or.inl h₂
        · exact Or.inr ⟨List.mem_cons_of_mem _ h₂.1, h₂.2⟩

theorem getAssoc_eq_none_forall {α : Type} {l : List (String × α)} {K : String}
    (h : getAssoc l K = none) : ∀ p ∈ l, p.1 ≠ K := by
  induction l with
  | nil => simp
  | cons e rest ih =>
    obtain ⟨k', v'⟩ := e
    by_cases hk : k' = K
    · simp [getAssoc, hk] at h
    · simp only [getAssoc, if_neg hk] at h
      intro p hp
      rcases List.mem_cons.mp hp with h₁ | h₁
      · simp [h₁, hk]
      · exact ih h p h₁

/-! ## Helper lemmas: span-context codec -/

theorem replicate_all_x (s : Nat) :
    (List.replicate s 'x').all (fun d => d = 'x') = true := by
  induction s with
  | zero => rfl
  | succ n ih => simp [List.replicate_succ, ih]

theorem decodeChars_encode (t : Nat) (s : Nat) (acc : Nat) :
    decodeChars acc (List.replicate t 'x' ++ '-' :: List.replicate s 'x')
      = some ⟨acc + t, s⟩ := by
  induction t generalizing acc with
  | zero =>
    simp [decodeChars, replicate_all_x]
  | succ n ih =>
    rw [List.replicate_succ, List.cons_append]
    rw [show decodeChars acc ('x' :: (List.replicate n 'x' ++ '-' :: List.replicate s 'x'))
        = decodeChars (acc + 1) (List.replicate n 'x' ++ '-' :: List.replicate s 'x') from by
      simp [decodeChars]]
    rw [ih]
    congr 1
    simp
    omega

theorem decode_encode (c : SpanCtx) : decodeSpanCtx (encodeSpanCtx c) = some c := by
  show decodeChars 0 (List.replicate c.traceID 'x' ++ '-' :: List.replicate c.spanID 'x')
    = some c
  rw [decodeChars_encode]
  simp

/-! ## Helper lemmas: canonicalization and injection -/

theorem canon_traceparent : CanonicalMIMEHeaderKey "traceparent" = "Traceparent" := by
  decide

theorem inject_some_empty (c : SpanCtx) :
    Propagator.inject (some c) [] = [("Traceparent", [encodeSpanCtx c])] := by
  show HTTP.Set [] traceparentKey (encodeSpanCtx c) = _
  rw [HTTP.Set, traceparentKey, canon_traceparent]
  rfl

theorem headersWithSpan_none (h : Option Headers) :
    HeadersWithSpan none h = h.getD [] := by
  cases h <;> rfl

theorem headersWithSpan_some (c : SpanCtx) (h : Option Headers) :
    HeadersWithSpan (some c) h
      = setAssoc (h.getD []) "Traceparent" (HVal.str (encodeSpanCtx c)) := by
  show applyTaskHeaders h (Propagator.inject (some c) []) = _
  rw [inject_some_empty]
  cases h <;> rfl

theorem headersWithSpan_idem (ctx : Context) (h : Option Headers) :
    HeadersWithSpan ctx (some (HeadersWithSpan ctx h)) = HeadersWithSpan ctx h := by
  cases ctx with
  | none => rw [headersWithSpan_none, headersWithSpan_none, Option.getD_some]
  | some c =>
    rw [headersWithSpan_some, headersWithSpan_some, Option.getD_some, setAssoc_idem]

/-! ## Helper lemmas: the headers→carrier fold -/

theorem tasksToHTTPHeaderAux_cons (acc : HTTP) (key : String) (value : HVal)
    (rest : Headers) :
    tasksToHTTPHeaderAux acc ((key, value) :: rest)
      = tasksToHTTPHeaderAux (HTTP.Set acc key (fmtSprint value)) rest := by
  cases value <;> rfl

theorem tasksToHTTPHeaderAux_getAssoc_of_no_canon (hs : Headers) (acc : HTTP) (K : String)
    (h : ∀ p ∈ hs, CanonicalMIMEHeaderKey p.1 ≠ K) :
    getAssoc (tasksToHTTPHeaderAux acc hs) K = getAssoc acc K := by
  induction hs generalizing acc with
  | nil => rfl
  | cons e rest ih =>
    obtain ⟨k, v⟩ := e
    rw [tasksToHTTPHeaderAux_cons, ih _ (fun p hp => h p (List.mem_cons_of_mem _ hp))]
    exact getAssoc_setAssoc_ne _ _ _ _
      (fun hK => h (k, v) (List.mem_cons_self _ _) hK.symm)

theorem tasksToHTTPHeaderAux_getAssoc_unique (hs : Headers) (acc : HTTP)
    (K k₀ : String) (v₀ : HVal)
    (hk : CanonicalMIMEHeaderKey k₀ = K) (hmem : (k₀, v₀) ∈ hs)
    (huniq : ∀ p ∈ hs, CanonicalMIMEHeaderKey p.1 = K → p = (k₀, v₀)) :
    getAssoc (tasksToHTTPHeaderAux acc hs) K = some [fmtSprint v₀] := by
  induction hs generalizing acc with
  | nil => cases hmem
  | cons e rest ih =>
    obtain ⟨k, v⟩ := e
    rw [tasksToHTTPHeaderAux_cons]
    by_cases hcan : CanonicalMIMEHeaderKey k = K
    · have he : (k, v) = (k₀, v₀) := huniq _ (List.mem_cons_self _ _) hcan
      by_cases hr : (k₀, v₀) ∈ rest
      · exact ih _ hr (fun p hp hK => huniq p (List.mem_cons_of_mem _ hp) hK)
      · have hnone : ∀ p ∈ rest, CanonicalMIMEHeaderKey p.1 ≠ K := by
          intro p hp hK
          exact hr ((huniq p (List.mem_cons_of_mem _ hp) hK) ▸ hp)
        rw [tasksToHTTPHeaderAux_getAssoc_of_no_canon rest _ K hnone]
        obtain ⟨hk1, hv1⟩ := Prod.mk.injEq .. |>.mp he
        rw [HTTP.Set, hcan, hv1, getAssoc_setAssoc_self]
    · have hmem' : (k₀, v₀) ∈ rest := by
        rcases List.mem_cons.mp hmem with h₁ | h₁
        · exact absurd (((Prod.mk.injEq .. |>.mp h₁.symm).1) ▸ hcan) (by simp [hk])
        · exact h₁
      exact ih _ hmem' (fun p hp hK => huniq p (List.mem_cons_of_mem _ hp) hK)

/-! ## Helper lemmas: the carrier→headers fold -/

theorem applyTaskHeadersAux_getAssoc_of_no_key (carrier : HTTP) (d : Headers) (K : String)
    (h : ∀ p ∈ carrier, p.1 ≠ K) :
    getAssoc (applyTaskHeadersAux d carrier) K = getAssoc d K := by
  induction carrier generalizing d with
  | nil => rfl
  | cons e rest ih =>
    obtain ⟨k, vs⟩ := e
    have hk : k ≠ K := h (k, vs) (List.mem_cons_self _ _)
    have hrest := fun p hp => h p (List.mem_cons_of_mem _ hp)
    cases vs with
    | nil => exact ih _ hrest
    | cons v _ =>
      rw [show applyTaskHeadersAux d ((k, v :: _) :: rest)
          = applyTaskHeadersAux (d.Set k v) rest from rfl]
      rw [ih _ hrest, Headers.Set, getAssoc_setAssoc_ne _ _ _ _ (Ne.symm hk)]

theorem applyTaskHeadersAux_getAssoc_found (carrier : HTTP) (d : Headers) (K : String)
    (v : String) (vs : List String)
    (hnd : (carrier.map Prod.fst).Nodup) (hget : getAssoc carrier K = some (v :: vs)) :
    getAssoc (applyTaskHeadersAux d carrier) K = some (HVal.str v) := by
  induction carrier generalizing d with
  | nil => cases hget
  | cons e rest ih =>
    obtain ⟨k, ws⟩ := e
    rw [List.map_cons, List.nodup_cons] at hnd
    by_cases hk : k = K
    · subst hk
      rw [getAssoc, if_pos rfl] at hget
      obtain rfl : ws = v :: vs := by injection hget
      rw [show applyTaskHeadersAux d ((k, v :: vs) :: rest)
          = applyTaskHeadersAux (d.Set k v) rest from rfl]
      have hrest : ∀ p ∈ rest, p.1 ≠ k := by
        intro p hp hpk
        apply hnd.1
        have hm : p.1 ∈ rest.map Prod.fst := List.mem_map_of_mem Prod.fst hp
        rwa [hpk] at hm
      rw [applyTaskHeadersAux_getAssoc_of_no_key rest _ k hrest, Headers.Set,
        getAssoc_setAssoc_self]
    · rw [getAssoc, if_neg hk] at hget
      cases ws with
      | nil => exact ih _ hnd.2 hget
      | cons w _ => exact ih _ hnd.2 hget

theorem applyTaskHeadersAux_getAssoc_empty_entry (carrier : HTTP) (d : Headers) (K : String)
    (hnd : (carrier.map Prod.fst).Nodup) (hget : getAssoc carrier K = some []) :
    getAssoc (applyTaskHeadersAux d carrier) K = getAssoc d K := by
  induction carrier generalizing d with
  | nil => cases hget
  | cons e rest ih =>
    obtain ⟨k, ws⟩ := e
    rw [List.map_cons, List.nodup_cons] at hnd
    by_cases hk : k = K
    · subst hk
      rw [getAssoc, if_pos rfl] at hget
      obtain rfl : ws = [] := by injection hget
      have hrest : ∀ p ∈ rest, p.1 ≠ k := by
        intro p hp hpk
        apply hnd.1
        have hm : p.1 ∈ rest.map Prod.fst := List.mem_map_of_mem Prod.fst hp
        rwa [hpk] at hm
      exact applyTaskHeadersAux_getAssoc_of_no_key rest _ k hrest
    · rw [getAssoc, if_neg hk] at hget
      cases ws with
      | nil => exact ih _ hnd.2 hget
      | cons w _ =>
        rw [show applyTaskHeadersAux d ((k, w :: _) :: rest)
            = applyTaskHeadersAux (d.Set k w) rest from rfl]
        rw [ih _ hnd.2 hget, Headers.Set, getAssoc_setAssoc_ne _ _ _ _ (Ne.symm hk)]

theorem applyTaskHeadersAux_getAssoc_absent (carrier : HTTP) (d : Headers) (K : String)
    (hget : getAssoc carrier K = none) :
    getAssoc (applyTaskHeadersAux d carrier) K = getAssoc d K :=
  applyTaskHeadersAux_getAssoc_of_no_key carrier d K (getAssoc_eq_none_forall hget)

/-! ## Helper lemmas: end-to-end extraction after injection -/

theorem extract_headersWithSpan (c : SpanCtx) (h : Option Headers)
    (hnd : ((h.getD []).map Prod.fst).Nodup)
    (hben : ∀ p ∈ h.getD [],
      CanonicalMIMEHeaderKey p.1 = "Traceparent" → p.1 = "Traceparent") :
    Propagator.extract none (tasksToHTTPHeader (HeadersWithSpan (some c) h)) = some c := by
  rw [headersWithSpan_some]
  have hcanK : CanonicalMIMEHeaderKey "Traceparent" = "Traceparent" := by decide
  have hmem : ("Traceparent", HVal.str (encodeSpanCtx c))
      ∈ setAssoc (h.getD []) "Traceparent" (HVal.str (encodeSpanCtx c)) :=
    mem_setAssoc_self _ _ _
  have huniq : ∀ p ∈ setAssoc (h.getD []) "Traceparent" (HVal.str (encodeSpanCtx c)),
      CanonicalMIMEHeaderKey p.1 = "Traceparent"
        → p = ("Traceparent", HVal.str (encodeSpanCtx c)) := by
    intro p hp hK
    rcases mem_setAssoc_nodup hnd hp with h₁ | ⟨h₁, h₂⟩
    · exact h₁
    · exact absurd (hben p h₁ hK) h₂
  have hget := tasksToHTTPHeaderAux_getAssoc_unique
    (setAssoc (h.getD []) "Traceparent" (HVal.str (encodeSpanCtx c))) []
    "Traceparent" "Traceparent" (HVal.str (encodeSpanCtx c)) hcanK hmem huniq
  have hGet : HTTP.Get
      (tasksToHTTPHeader (setAssoc (h.getD []) "Traceparent"
        (HVal.str (encodeSpanCtx c)))) traceparentKey = encodeSpanCtx c := by
    rw [HTTP.Get, traceparentKey, canon_traceparent]
    rw [show tasksToHTTPHeader (setAssoc (h.getD []) "Traceparent"
        (HVal.str (encodeSpanCtx c)))
      = tasksToHTTPHeaderAux []
          (setAssoc (h.getD []) "Traceparent" (HVal.str (encodeSpanCtx c))) from rfl]
    rw [hget]
    rfl
  rw [Propagator.extract, hGet, decode_encode]


/-! ## Helper lemmas: span attributes -/

theorem attr?_setAttributes (s : Span) (l : List Attr) (k : String) :
    (s.setAttributes l).attr? k
      = match l.reverse.find? (fun p => p.1 == k) with
        | some p => some p.2
        | none => s.attr? k := by
  unfold Span.attr? Span.setAttributes
  simp only [List.reverse_append, List.find?_append]
  cases hf : l.reverse.find? (fun p => p.1 == k) <;> simp [Option.or]

theorem annotateGroup_span_attrs (ctx : Context) (span : Span) (group : Group)
    (conc : Int) :
    ((AnnotateSpanWithGroupInfo ctx span group conc).1.attr? "group.uuid"
        = some (AttrVal.str group.GroupUUID))
    ∧ ((AnnotateSpanWithGroupInfo ctx span group conc).1.attr? "group.tasks.length"
        = some (AttrVal.int (group.Tasks.length : Int)))
    ∧ ((AnnotateSpanWithGroupInfo ctx span group conc).1.attr? "group.concurrency"
        = some (AttrVal.int conc))
    ∧ ((AnnotateSpanWithGroupInfo ctx span group conc).1.attr? "group.tasks"
        = some (AttrVal.strSlice group.GetUUIDs)) := by
  refine ⟨?_, ?_, ?_, ?_⟩ <;>
    simp [AnnotateSpanWithGroupInfo, attr?_setAttributes, attributeString, attributeInt,
      attributeStringSlice, List.find?]

/-! ## Claim theorems -/

/-- C9: `StartSpan` ignores its variadic `SpanStartOption` arguments entirely:
for every context, operation name and option list the result is identical to
the no-options call, and the span is configured only with the fixed producer
span kind (and no attributes). -/
theorem startSpan_ignores_opts (ctx : Context) (operationName : String)
    (opts : List SpanStartOption) (fresh : SpanCtx) :
    StartSpan ctx operationName opts fresh = StartSpan ctx operationName [] fresh
    ∧ (StartSpan ctx operationName opts fresh).2.kind = SpanKind.producer
    ∧ (StartSpan ctx operationName opts fresh).2.attrs = [] :=
  ⟨rfl, rfl, rfl⟩

/-- C3 (amended): only spans produced by `StartSpanFromHeaders` carry the
fixed attribute component = "machinery" (they always do, regardless of the
extraction outcome); spans produced by `StartSpan` carry no component
attribute at all. -/
theorem component_tag_only_from_headers (ctx : Context) (headers : Option Headers)
    (operationName : String) (fresh : SpanCtx) (opts : List SpanStartOption) :
    (StartSpanFromHeaders ctx headers operationName fresh).2.attr? "component"
        = some (AttrVal.str "machinery")
    ∧ (StartSpan ctx operationName opts fresh).2.attr? "component" = none :=
  ⟨rfl, rfl⟩

/-- C3 counterexample: a concrete span produced by `StartSpan` carries no
component = "machinery" attribute, refuting the claim that every span of the
span lifecycle manager does. -/
theorem startSpan_no_component_cex :
    (StartSpan none "send" [] ⟨0, 0⟩).2.attr? "component" = none := rfl

/-- C7: `AnnotateSpanWithChordInfo` does not defensively validate the chord's
callback: with a nil callback it fails while reading the callback's UUID (the
Go nil-pointer dereference, modelled as the `none` result), and with a
non-nil callback no such failure occurs. -/
theorem annotateChord_nil_callback (ctx : Context) (span : Span) (chord : Chord)
    (sendConcurrency : Int) :
    AnnotateSpanWithChordInfo ctx span chord sendConcurrency = none
      ↔ chord.Callback = none := by
  cases hc : chord.Callback <;> simp [AnnotateSpanWithChordInfo, hc]

/-- C8 (amended): a nil destination header map is in fact defended against in
the injection path: `applyTaskHeaders` replaces a nil destination by a fresh
empty map and `HeadersWithSpan` therefore returns normally on nil headers —
no runtime failure occurs. -/
theorem nil_headers_defended (ctx : Context) (carrier : HTTP) :
    applyTaskHeaders none carrier = applyTaskHeaders (some []) carrier
    ∧ HeadersWithSpan ctx none = HeadersWithSpan ctx (some []) :=
  ⟨rfl, rfl⟩

/-- C8 counterexample: on a concrete nil destination header map both
`applyTaskHeaders` and `HeadersWithSpan` return a normal result (the freshly
created map), refuting the claim that a nil header map surfaces as a runtime
null-access failure. -/
theorem nil_headers_cex :
    applyTaskHeaders none [("K1", ["v"])] = [("K1", HVal.str "v")]
    ∧ HeadersWithSpan (some ⟨1, 2⟩) none
        = [("Traceparent", HVal.str (encodeSpanCtx ⟨1, 2⟩))] := by
  refine ⟨rfl, ?_⟩
  rw [headersWithSpan_some]
  rfl

/-- C5: `applyTaskHeaders` sets destination[key] to the entry's first value
for every carrier entry with at least one value, skips zero-value entries,
creates the destination map when it is nil, preserves destination keys absent
from the carrier, and overwrites colliding keys. -/
theorem applyTaskHeaders_merge (carrier : HTTP) (dest : Option Headers)
    (hnd : (carrier.map Prod.fst).Nodup) :
    (∀ K v vs, getAssoc carrier K = some (v :: vs)
        → getAssoc (applyTaskHeaders dest carrier) K = some (HVal.str v))
    ∧ (∀ K, getAssoc carrier K = none
        → getAssoc (applyTaskHeaders dest carrier) K = getAssoc (dest.getD []) K)
    ∧ (∀ K, getAssoc carrier K = some []
        → getAssoc (applyTaskHeaders dest carrier) K = getAssoc (dest.getD []) K)
    ∧ applyTaskHeaders none carrier = applyTaskHeaders (some []) carrier := by
  have hd : applyTaskHeaders dest carrier = applyTaskHeadersAux (dest.getD []) carrier := by
    cases dest <;> rfl
  refine ⟨?_, ?_, ?_, rfl⟩
  · intro K v vs hget
    rw [hd]
    exact applyTaskHeadersAux_getAssoc_found _ _ _ _ _ hnd hget
  · intro K hget
    rw [hd]
    exact applyTaskHeadersAux_getAssoc_absent _ _ _ hget
  · intro K hget
    rw [hd]
    exact applyTaskHeadersAux_getAssoc_empty_entry _ _ _ hnd hget

/-- C5 witness: the merge on a concrete carrier and destination takes the
first value of the colliding key "A". -/
theorem applyTaskHeaders_merge_witness :
    getAssoc (applyTaskHeaders (some [("x", HVal.str "y"), ("A", HVal.str "old")])
      [("A", ["1", "2"]), ("B", []), ("C", ["3"])]) "A" = some (HVal.str "1") :=
  (applyTaskHeaders_merge [("A", ["1", "2"]), ("B", []), ("C", ["3"])]
    (some [("x", HVal.str "y"), ("A", HVal.str "old")]) (by decide)).1
    "A" "1" ["2"] (by decide)

theorem mapUpdate_idem (ctx : Context) (l : List Signature) :
    ((l.map fun signature => { signature with
        Headers := some (HeadersWithSpan ctx signature.Headers) }).map
      fun signature => { signature with
        Headers := some (HeadersWithSpan ctx signature.Headers) })
    = l.map fun signature => { signature with
        Headers := some (HeadersWithSpan ctx signature.Headers) } := by
  induction l with
  | nil => rfl
  | cons sig rest ih =>
    simp only [List.map_cons, ih]
    simp [headersWithSpan_idem]

/-- C6: re-annotating the same chain, group, or chord with the same context
overwrites the same header keys with the same deterministic values: the member
header maps (and the callback's, for a chord) after two runs are identical to
those after one run. -/
theorem annotate_twice_idempotent (ctx : Context) (span span2 : Span)
    (chain : Chain) (group : Group) (chord : Chord) (conc : Int) :
    (AnnotateSpanWithChainInfo ctx span2 (AnnotateSpanWithChainInfo ctx span chain).2).2
        = (AnnotateSpanWithChainInfo ctx span chain).2
    ∧ (AnnotateSpanWithGroupInfo ctx span2
          (AnnotateSpanWithGroupInfo ctx span group conc).2 conc).2
        = (AnnotateSpanWithGroupInfo ctx span group conc).2
    ∧ ((AnnotateSpanWithChordInfo ctx span chord conc).bind fun r =>
          (AnnotateSpanWithChordInfo ctx span2 r.2 conc).map Prod.snd)
        = (AnnotateSpanWithChordInfo ctx span chord conc).map Prod.snd := by
  refine ⟨?_, ?_, ?_⟩
  · exact congrArg Chain.mk (mapUpdate_idem ctx chain.Tasks)
  · exact congrArg (Group.mk group.GroupUUID) (mapUpdate_idem ctx group.Tasks)
  · cases hc : chord.Callback with
    | none => simp [AnnotateSpanWithChordInfo, hc]
    | some cb =>
      simp [AnnotateSpanWithChordInfo, hc, AnnotateSpanWithGroupInfo,
        headersWithSpan_idem, mapUpdate_idem]

theorem mem_tasksToHTTPHeaderAux {hs : Headers} {acc : HTTP} {p : String × List String}
    (hp : p ∈ tasksToHTTPHeaderAux acc hs) :
    (∃ q ∈ hs, p.1 = CanonicalMIMEHeaderKey q.1) ∨ p ∈ acc := by
  induction hs generalizing acc with
  | nil => exact Or.inr hp
  | cons e rest ih =>
    obtain ⟨k, v⟩ := e
    rw [tasksToHTTPHeaderAux_cons] at hp
    rcases ih hp with ⟨q, hq, hpq⟩ | hin
    · exact Or.inl ⟨q, List.mem_cons_of_mem _ hq, hpq⟩
    · rcases mem_setAssoc_weak hin with h₁ | h₁
      · exact Or.inl ⟨(k, v), List.mem_cons_self _ _, by simp [h₁]⟩
      · exact Or.inr h₁

/-- C10: header-map keys are not preserved verbatim across the carrier
boundary: `tasksToHTTPHeader` stores keys in canonical MIME form (e.g.
"foo-bar" becomes "Foo-Bar"), two distinct keys with the same canonical form
collide into a single carrier entry (last write wins), and every key of a
produced carrier is the canonical form of some header-map key. -/
theorem headerKey_canonical (hs : Headers) :
    CanonicalMIMEHeaderKey "foo-bar" = "Foo-Bar"
    ∧ (∀ k₁ k₂ v₁ v₂, k₁ ≠ k₂ → CanonicalMIMEHeaderKey k₁ = CanonicalMIMEHeaderKey k₂
        → tasksToHTTPHeader [(k₁, HVal.str v₁), (k₂, HVal.str v₂)]
            = [(CanonicalMIMEHeaderKey k₁, [v₂])])
    ∧ (∀ p ∈ tasksToHTTPHeader hs, ∃ q ∈ hs, p.1 = CanonicalMIMEHeaderKey q.1) := by
  refine ⟨by decide, ?_, ?_⟩
  · intro k₁ k₂ v₁ v₂ hne hcan
    show tasksToHTTPHeaderAux [] [(k₁, HVal.str v₁), (k₂, HVal.str v₂)] = _
    rw [tasksToHTTPHeaderAux_cons, tasksToHTTPHeaderAux_cons]
    show HTTP.Set (HTTP.Set [] k₁ v₁) k₂ v₂ = _
    simp [HTTP.Set, setAssoc, ← hcan]
  · intro p hp
    rcases mem_tasksToHTTPHeaderAux hp with h | h
    · exact h
    · cases h

/-- C10 witness: two concrete case-variant keys collide into the single
canonical carrier entry, whose value is the later write. -/
theorem headerKey_canonical_witness :
    tasksToHTTPHeader [("foo-bar", HVal.str "1"), ("FOO-BAR", HVal.str "2")]
      = [("Foo-Bar", ["2"])] := by
  have h := (headerKey_canonical []).2.1 "foo-bar" "FOO-BAR" "1" "2"
    (by decide) (by decide)
  rw [h, show CanonicalMIMEHeaderKey "foo-bar" = "Foo-Bar" from by decide]

/-- C4 counterexample: a header map with the two distinct keys "foo-bar" and
"FOO-BAR" (keys unique) yields different carriers under the two iteration
orders — the shared canonical key "Foo-Bar" holds the last-written value, so
one order's write does overwrite the other's. -/
theorem tasksToHTTPHeader_order_cex :
    ([("foo-bar", HVal.str "1"), ("FOO-BAR", HVal.str "2")].map Prod.fst).Nodup
    ∧ List.Perm [("foo-bar", HVal.str "1"), ("FOO-BAR", HVal.str "2")]
        [("FOO-BAR", HVal.str "2"), ("foo-bar", HVal.str "1")]
    ∧ getAssoc (tasksToHTTPHeader [("foo-bar", HVal.str "1"), ("FOO-BAR", HVal.str "2")])
        "Foo-Bar" = some ["2"]
    ∧ getAssoc (tasksToHTTPHeader [("FOO-BAR", HVal.str "2"), ("foo-bar", HVal.str "1")])
        "Foo-Bar" = some ["1"] := by
  refine ⟨by decide, by decide, by decide, by decide⟩

/-- C4 (amended): for every header map whose keys have pairwise distinct
canonical MIME forms, the carrier binds the canonical form of each key to the
single coerced string value of that key, and the carrier is extensionally
identical for any two iteration orders of the map; when two distinct keys
share a canonical form (C10) the colliding entry instead holds the
last-written value and iteration order is observable. -/
theorem tasksToHTTPHeader_order_inv (hs₁ hs₂ : Headers)
    (hcan : (hs₁.map fun p => CanonicalMIMEHeaderKey p.1).Nodup)
    (hperm : List.Perm hs₁ hs₂) :
    (∀ p ∈ hs₁, getAssoc (tasksToHTTPHeader hs₁) (CanonicalMIMEHeaderKey p.1)
        = some [fmtSprint p.2])
    ∧ (∀ K, getAssoc (tasksToHTTPHeader hs₁) K = getAssoc (tasksToHTTPHeader hs₂) K) := by
  have inj := List.inj_on_of_nodup_map hcan
  have hcan₂ : (hs₂.map fun p => CanonicalMIMEHeaderKey p.1).Nodup :=
    ((hperm.map fun p => CanonicalMIMEHeaderKey p.1).nodup_iff).mp hcan
  have inj₂ := List.inj_on_of_nodup_map hcan₂
  constructor
  · intro p hp
    refine tasksToHTTPHeaderAux_getAssoc_unique hs₁ [] _ p.1 p.2 rfl (by simpa using hp)
      (fun q hq hK => ?_)
    have hq' : q = p := inj hq hp hK
    simp [hq']
  · intro K
    by_cases hex : ∃ p ∈ hs₁, CanonicalMIMEHeaderKey p.1 = K
    · obtain ⟨p, hp, hK⟩ := hex
      have hp₂ : p ∈ hs₂ := hperm.mem_iff.mp hp
      have h₁ : getAssoc (tasksToHTTPHeaderAux [] hs₁) K = some [fmtSprint p.2] := by
        refine tasksToHTTPHeaderAux_getAssoc_unique hs₁ [] K p.1 p.2 hK
          (by simpa using hp) (fun q hq hqK => ?_)
        have hq' : q = p := inj hq hp (by rw [hqK, hK])
        simp [hq']
      have h₂ : getAssoc (tasksToHTTPHeaderAux [] hs₂) K = some [fmtSprint p.2] := by
        refine tasksToHTTPHeaderAux_getAssoc_unique hs₂ [] K p.1 p.2 hK
          (by simpa using hp₂) (fun q hq hqK => ?_)
        have hq' : q = p := inj₂ hq hp₂ (by rw [hqK, hK])
        simp [hq']
      show getAssoc (tasksToHTTPHeaderAux [] hs₁) K = getAssoc (tasksToHTTPHeaderAux [] hs₂) K
      rw [h₁, h₂]
    · push_neg at hex
      have hex₂ : ∀ p ∈ hs₂, CanonicalMIMEHeaderKey p.1 ≠ K :=
        fun p hp => hex p (hperm.mem_iff.mpr hp)
      show getAssoc (tasksToHTTPHeaderAux [] hs₁) K = getAssoc (tasksToHTTPHeaderAux [] hs₂) K
      rw [tasksToHTTPHeaderAux_getAssoc_of_no_canon hs₁ [] K hex,
        tasksToHTTPHeaderAux_getAssoc_of_no_canon hs₂ [] K hex₂]

/-- C4 witness: on a concrete collision-free header map the carrier binds the
canonical key "Foo-Bar" to the coerced value of "foo-bar". -/
theorem tasksToHTTPHeader_order_inv_witness :
    getAssoc (tasksToHTTPHeader [("foo-bar", HVal.str "1"), ("num", HVal.int 7)])
      "Foo-Bar" = some ["1"] := by
  have h := (tasksToHTTPHeader_order_inv [("foo-bar", HVal.str "1"), ("num", HVal.int 7)]
    [("foo-bar", HVal.str "1"), ("num", HVal.int 7)] (by decide) (List.Perm.refl _)).1
    ("foo-bar", HVal.str "1") (by decide)
  rw [show CanonicalMIMEHeaderKey "foo-bar" = "Foo-Bar" from by decide] at h
  exact h

/-- C1 (amended): for a group of N signatures and an active span context,
`AnnotateSpanWithGroupInfo` leaves N member signatures, each of whose header
maps contains an extractable span context equal to the annotating context
(in particular with the same trace id), and tags the span with group.uuid,
group.tasks.length = N, group.concurrency, and the ordered member uuid list —
provided each member's pre-existing header keys are unique and no key other
than "Traceparent" itself has canonical MIME form "Traceparent" (otherwise the
canonical-key collision of C10 can clobber the injected entry, see the
counterexample). -/
theorem annotateGroup_fanout (ctx : Context) (c : SpanCtx) (span : Span)
    (group : Group) (conc : Int)
    (hctx : ctx = some c)
    (hnd : ∀ sig ∈ group.Tasks, ((sig.Headers.getD []).map Prod.fst).Nodup)
    (hben : ∀ sig ∈ group.Tasks, ∀ p ∈ sig.Headers.getD [],
      CanonicalMIMEHeaderKey p.1 = "Traceparent" → p.1 = "Traceparent") :
    (AnnotateSpanWithGroupInfo ctx span group conc).2.Tasks.length = group.Tasks.length
    ∧ (∀ sig ∈ (AnnotateSpanWithGroupInfo ctx span group conc).2.Tasks,
        extractFromSignature sig = some c)
    ∧ (AnnotateSpanWithGroupInfo ctx span group conc).1.attr? "group.uuid"
        = some (AttrVal.str group.GroupUUID)
    ∧ (AnnotateSpanWithGroupInfo ctx span group conc).1.attr? "group.tasks.length"
        = some (AttrVal.int (group.Tasks.length : Int))
    ∧ (AnnotateSpanWithGroupInfo ctx span group conc).1.attr? "group.concurrency"
        = some (AttrVal.int conc)
    ∧ (AnnotateSpanWithGroupInfo ctx span group conc).1.attr? "group.tasks"
        = some (AttrVal.strSlice group.GetUUIDs) := by
  subst hctx
  obtain ⟨h1, h2, h3, h4⟩ := annotateGroup_span_attrs (some c) span group conc
  refine ⟨by simp [AnnotateSpanWithGroupInfo], ?_, h1, h2, h3, h4⟩
  intro sig hsig
  rw [show (AnnotateSpanWithGroupInfo (some c) span group conc).2.Tasks
      = group.Tasks.map (fun signature => { signature with
          Headers := some (HeadersWithSpan (some c) signature.Headers) }) from rfl] at hsig
  obtain ⟨orig, horig, rfl⟩ := List.mem_map.mp hsig
  show Propagator.extract none (tasksToHTTPHeader
    ((some (HeadersWithSpan (some c) orig.Headers)).getD [])) = some c
  rw [Option.getD_some]
  exact extract_headersWithSpan c orig.Headers (hnd orig horig) (hben orig horig)

/-- C1 counterexample: a group member whose pre-existing headers hold the
distinct keys "Traceparent" and "tRaceparent" (both canonicalizing to
"Traceparent").  Under the modelled iteration order the stale "tRaceparent"
value overwrites the injected entry in the carrier, so after
`AnnotateSpanWithGroupInfo` the single member has no extractable span context
at all — refuting the claim for every group and iteration order. -/
theorem annotateGroup_fanout_cex :
    ((AnnotateSpanWithGroupInfo (some ⟨1, 1⟩) ⟨"s", SpanKind.producer, []⟩
        ⟨"g", [⟨"t", "u", "g",
          some [("Traceparent", HVal.str "bogus"), ("tRaceparent", HVal.str "junk")]⟩]⟩
        0).2.Tasks.map extractFromSignature) = [none] := by
  decide

/-- C1 witness: a concrete two-signature group with benign headers; the first
annotated member's headers extract back to the annotating context. -/
theorem annotateGroup_fanout_witness :
    extractFromSignature (((AnnotateSpanWithGroupInfo (some ⟨5, 7⟩)
        ⟨"s", SpanKind.producer, []⟩
        ⟨"g", [⟨"a", "ua", "g", some [("x", HVal.str "y")]⟩, ⟨"b", "ub", "g", none⟩]⟩
        3).2.Tasks).getD 0 ⟨"", "", "", none⟩) = some ⟨5, 7⟩ := by
  have h := (annotateGroup_fanout (some ⟨5, 7⟩) ⟨5, 7⟩ ⟨"s", SpanKind.producer, []⟩
    ⟨"g", [⟨"a", "ua", "g", some [("x", HVal.str "y")]⟩, ⟨"b", "ub", "g", none⟩]⟩
    3 rfl (by decide) (by decide)).2.1
  exact h _ (by decide)

theorem annotateGroup_attr_callback (ctx : Context) (s : Span) (group : Group)
    (conc : Int) :
    (AnnotateSpanWithGroupInfo ctx s group conc).1.attr? "chord.callback.uuid"
      = s.attr? "chord.callback.uuid" := by
  simp [AnnotateSpanWithGroupInfo, attr?_setAttributes, attributeString, attributeInt,
    attributeStringSlice, List.find?]

/-- C2: for a chord with a non-nil callback and an active span context,
`AnnotateSpanWithChordInfo` tags the span with chord.callback.uuid = the
callback's id, injects the current context into the callback's headers, and
delegates to the group annotation on the chord's group with the same span and
concurrency; the callback's injected trace field equals every group member's
injected trace field (the encoded annotating context, hence the same trace
id). -/
theorem annotateChord_delegates (ctx : Context) (c : SpanCtx) (span : Span)
    (chord : Chord) (conc : Int) (cb : Signature)
    (hcb : chord.Callback = some cb) (hctx : ctx = some c) :
    ∃ sp' ch', AnnotateSpanWithChordInfo ctx span chord conc = some (sp', ch')
      ∧ sp'.attr? "chord.callback.uuid" = some (AttrVal.str cb.UUID)
      ∧ ch'.Callback = some { cb with Headers := some (HeadersWithSpan ctx cb.Headers) }
      ∧ sp' = (AnnotateSpanWithGroupInfo ctx
          (span.setAttributes [attributeString "chord.callback.uuid" cb.UUID])
          chord.Group conc).1
      ∧ ch'.Group = (AnnotateSpanWithGroupInfo ctx
          (span.setAttributes [attributeString "chord.callback.uuid" cb.UUID])
          chord.Group conc).2
      ∧ getAssoc (HeadersWithSpan ctx cb.Headers) "Traceparent"
          = some (HVal.str (encodeSpanCtx c))
      ∧ ∀ m ∈ ch'.Group.Tasks, ∃ hm, m.Headers = some hm
          ∧ getAssoc hm "Traceparent" = some (HVal.str (encodeSpanCtx c)) := by
  subst hctx
  refine ⟨(AnnotateSpanWithGroupInfo (some c)
      (span.setAttributes [attributeString "chord.callback.uuid" cb.UUID])
      chord.Group conc).1,
    ⟨(AnnotateSpanWithGroupInfo (some c)
      (span.setAttributes [attributeString "chord.callback.uuid" cb.UUID])
      chord.Group conc).2,
     some { cb with Headers := some (HeadersWithSpan (some c) cb.Headers) }⟩,
    ?_, ?_, rfl, rfl, rfl, ?_, ?_⟩
  · simp only [AnnotateSpanWithChordInfo, hcb]
  · rw [annotateGroup_attr_callback]
    simp [attr?_setAttributes, attributeString, List.find?]
  · rw [headersWithSpan_some]
    exact getAssoc_setAssoc_self _ _ _
  · intro m hm
    rw [show (AnnotateSpanWithGroupInfo (some c)
        (span.setAttributes [attributeString "chord.callback.uuid" cb.UUID])
        chord.Group conc).2.Tasks
      = chord.Group.Tasks.map (fun signature => { signature with
          Headers := some (HeadersWithSpan (some c) signature.Headers) }) from rfl] at hm
    obtain ⟨orig, _, rfl⟩ := List.mem_map.mp hm
    refine ⟨HeadersWithSpan (some c) orig.Headers, rfl, ?_⟩
    rw [headersWithSpan_some]
    exact getAssoc_setAssoc_self _ _ _

/-- C2 witness: the theorem's conclusion at a concrete one-member chord with
an active ⟨4, 2⟩ context. -/
theorem annotateChord_delegates_witness :
    ∃ sp' ch', AnnotateSpanWithChordInfo (some ⟨4, 2⟩) ⟨"s", SpanKind.producer, []⟩
        ⟨⟨"g", [⟨"a", "ua", "g", none⟩]⟩, some ⟨"cb", "ucb", "", none⟩⟩ 1
        = some (sp', ch')
      ∧ sp'.attr? "chord.callback.uuid" = some (AttrVal.str "ucb")
      ∧ ch'.Callback = some ⟨"cb", "ucb", "",
          some (HeadersWithSpan (some ⟨4, 2⟩) none)⟩
      ∧ sp' = (AnnotateSpanWithGroupInfo (some ⟨4, 2⟩)
          (Span.setAttributes ⟨"s", SpanKind.producer, []⟩
            [attributeString "chord.callback.uuid" "ucb"])
          ⟨"g", [⟨"a", "ua", "g", none⟩]⟩ 1).1
      ∧ ch'.Group = (AnnotateSpanWithGroupInfo (some ⟨4, 2⟩)
          (Span.setAttributes ⟨"s", SpanKind.producer, []⟩
            [attributeString "chord.callback.uuid" "ucb"])
          ⟨"g", [⟨"a", "ua", "g", none⟩]⟩ 1).2
      ∧ getAssoc (HeadersWithSpan (some ⟨4, 2⟩) none) "Traceparent"
          = some (HVal.str (encodeSpanCtx ⟨4, 2⟩))
      ∧ ∀ m ∈ ch'.Group.Tasks, ∃ hm, m.Headers = some hm
          ∧ getAssoc hm "Traceparent" = some (HVal.str (encodeSpanCtx ⟨4, 2⟩)) :=
  annotateChord_delegates (some ⟨4, 2⟩) ⟨4, 2⟩ ⟨"s", SpanKind.producer, []⟩
    ⟨⟨"g", [⟨"a", "ua", "g", none⟩]⟩, some ⟨"cb", "ucb", "", none⟩⟩ 1
    ⟨"cb", "ucb", "", none⟩ rfl rfl

end Machinery
